import Mathlib

/-!
Verification of the incremental indexing pipeline of `your_assistant`
(`src/your_assistant/core/indexer.py`, class `KnowledgeIndexer`).

The Python code is shallowly embedded as follows.

* A langchain `Document` becomes the structure `Document` below: its
  `page_content` is a `String` and its metadata mapping is an association
  list `List (String × String)` (the code only ever touches the
  `"source"` key, whose values are strings).
* Exceptions become the inductive `PyErr`, one constructor per `raise`
  site (plus `keyError` for the subscript in `__init__` and
  `noneSaveLocal` for `db.save_local` when `db is None`).  Fallible code
  returns `PyResult α`, an `Except`-style type.
* External collaborators (`urlparse` scheme/netloc test, the downloader
  `utils.file_downloader`, file existence, the format loaders'
  `load_and_split`, and the opaque embedding capability) are fields of
  an `Env` record.  `FAISS.from_documents` either fails
  (`Env.embedFails`) or yields a sub-index holding exactly the batch;
  the vector index is modelled by the list of documents it contains,
  with `merge_from` as list append.
* Side effects on disk are recorded in two ways: an event trace
  (`Event`) listing every externally visible action in order, and an
  `IndexerState` holding the in-memory record plus the persisted index
  and record file.  A raised exception is an error result; events
  emitted before the raise remain in the trace, and no state is
  produced (matching Python, where the writes at the end of
  `_index_embeddings` are simply never reached).
* `utils.chunk_list` is repository code that is not under `src/`; it is
  modelled from the spec (see `chunk_list` below).
-/

namespace YourAssistant

/-- Document chunk: `page_content` plus the metadata mapping (only the
`"source"` key is ever used by the indexer, so values are strings). -/
structure Document where
  page_content : String
  metadata : List (String × String)
deriving DecidableEq

/-- Python exceptions raised by the indexer, one constructor per raise
site in `indexer.py`:
* `unsupportedExtension` — the `ValueError` at line 102 (extension not
  in `_FILE_EXTENSIONS`);
* `fileNotFound` — the `ValueError` at line 114;
* `loaderInitFailure` — the `ValueError` at line 116 (the
  `except ValueError` wrapper in `_init_loader`);
* `configError` — the `ValueError` at line 128 (chunk size vs overlap);
* `embeddingFailure` — an exception propagating out of
  `FAISS.from_documents` (the embedding capability);
* `noneSaveLocal` — the `AttributeError` from `db.save_local` at line
  174 when `db` is still `None`;
* `keyError` — the `KeyError` from `self.index_record["indexed_doc"]`
  at line 51 of `__init__`. -/
inductive PyErr where
  | unsupportedExtension (path : String)
  | fileNotFound (path : String)
  | loaderInitFailure
  | configError (chunkSize chunkOverlap : Int)
  | embeddingFailure
  | noneSaveLocal
  | keyError (key : String)
deriving DecidableEq

/-- Result of a Python call: a value, or a raised exception. -/
inductive PyResult (α : Type) where
  | ok (a : α)
  | error (e : PyErr)
deriving DecidableEq

/-- Whether an exception is a Python `ValueError` (these are the ones
caught by the `except ValueError` in `_init_loader`). -/
def PyErr.isValueErrorKind : PyErr → Bool
  | .unsupportedExtension _ => true
  | .fileNotFound _ => true
  | .loaderInitFailure => true
  | .configError _ _ => true
  | _ => false

/-- Externally visible actions of one `index()` call, in order:
downloading a url to a local file, `FAISS.load_local`,
`FAISS.from_documents` on one batch, `db.save_local`,
`index_record_path.unlink()`, the `json.dump` of the record (with the
serialized `indexed_doc` list), and `os.remove`. -/
inductive Event where
  | downloadFile (url localPath : String)
  | loadIndex
  | embedCall (idx : Nat) (batch : List Document)
  | saveIndex (content : List Document)
  | unlinkRecord
  | writeRecord (indexedDoc : List String)
  | removeFile (path : String)
deriving DecidableEq

def Event.isEmbedCall : Event → Bool
  | .embedCall _ _ => true
  | _ => false

def Event.isSaveIndex : Event → Bool
  | .saveIndex _ => true
  | _ => false

def Event.isWriteRecord : Event → Bool
  | .writeRecord _ => true
  | _ => false

def Event.isUnlinkRecord : Event → Bool
  | .unlinkRecord => true
  | _ => false

def Event.isRemoveFile : Event → Bool
  | .removeFile _ => true
  | _ => false

/-- Contents of the on-disk `index_record.json`: either not parseable as
JSON (which includes the empty file `touch`ed by `__init__`), or a
parsed JSON object given by its fields, where the value of a field is a
list of source-id strings (the shape the indexer itself writes). -/
inductive RecordFileContent where
  | unparseable
  | parsed (fields : List (String × List String))
deriving DecidableEq

/-- State of the indexer: the in-memory `index_record["indexed_doc"]`
set (as a duplicate-free list), the persisted vector index (`none` when
`os.path.exists(self.db_index_name)` is false, otherwise the documents
it contains), and the persisted record file (`none` when absent). -/
structure IndexerState where
  indexedDoc : List String
  diskIndex : Option (List Document)
  diskRecord : Option RecordFileContent
deriving DecidableEq

/-- Which loader `_init_loader` instantiates. -/
inductive LoaderKind where
  | mobi
  | epub
  | unstructured
deriving DecidableEq

/-- A constructed format loader (`MobiLoader` / `EpubLoader` /
`UnstructuredFileLoader`), holding the path it was given. -/
structure Loader where
  kind : LoaderKind
  path : String
deriving DecidableEq

/-- External collaborators of one `index()` call:
* `isAbsUrl p` — whether `urlparse(p)` has both a scheme and a netloc;
* `download` — `utils.file_downloader` (repository code not under
  `src/`; per the spec it maps a url to `(sourceId, localPath)`);
* `fileExists` — `os.path.exists`;
* `loadDocs` — `loader.load_and_split(TokenTextSplitter(...))`, the
  external extraction step, as a function of the loader and the two
  chunking parameters;
* `embedFails i b` — whether the embedding capability raises on the
  call `FAISS.from_documents(b, ...)` for the `i`-th batch. -/
structure Env where
  isAbsUrl : String → Bool
  download : String → String × String
  fileExists : String → Bool
  loadDocs : Loader → Int → Int → List Document
  embedFails : Nat → List Document → Bool

/-- Python regex `\w` over the ASCII range: letters, digits, underscore. -/
def isWordChar (c : Char) : Bool :=
  c.isAlphanum || c = '_'

/-- Python regex `\s` over the ASCII range. -/
def isSpaceChar (c : Char) : Bool :=
  c = ' ' || c = '\t' || c = '\n' || c = '\r' || c = '\x0b' || c = '\x0c'

/-- The ASCII apostrophe (the first alternative inside the character
class `[...]` of the sanitizing regex). -/
def apostChar : Char := Char.ofNat 39

/-- Characters kept by `re.sub(r"[^\w\s]|[quote chars]", "", ...)` at
line 157: a character survives iff it does not match the pattern, i.e.
it is a word or whitespace character and is not a quote character. -/
def keepChar (c : Char) : Bool :=
  (isWordChar c || isSpaceChar c) && !(c = apostChar || c = '"')

/-- The substitution `re.sub(r"[^\w\s]|[quote chars]", "", s)`. -/
def sanitize (s : String) : String :=
  String.mk (s.toList.filter keepChar)

/-- Python dict assignment `m[k] = v` on an association list. -/
def dictSet (k v : String) (m : List (String × String)) : List (String × String) :=
  (k, v) :: m.filter (fun p => p.1 != k)

/-- The per-document processing at lines 155-157 of `_index_embeddings`:
`doc.metadata["source"] = source` and the sanitizing substitution on
`doc.page_content`. -/
def processDoc (source : String) (d : Document) : Document :=
  { page_content := sanitize d.page_content,
    metadata := dictSet "source" source d.metadata }

/-- Extension part of `os.path.splitext(p)`: everything from the last
dot of the basename, unless every character of the basename before that
dot is itself a dot (so `".bashrc"` has no extension). -/
def splitext_ext (p : String) : String :=
  let base := (p.toList.reverse.takeWhile (fun c => c != '/')).reverse
  let trimmed := base.dropWhile (fun c => c == '.')
  let revAfter := trimmed.reverse.takeWhile (fun c => c != '.')
  if revAfter.length = trimmed.length then ""
  else String.mk ('.' :: revAfter.reverse)

/-- The fixed allow-list `KnowledgeIndexer._FILE_EXTENSIONS` (line 26). -/
def _FILE_EXTENSIONS : List String :=
  [".pdf", ".mobi", ".epub", ".txt", ".html"]

/-- Fuel-driven worker for `chunk_list` (fuel makes the recursion
structural, so that concrete runs reduce inside the kernel). -/
def chunkGo {α : Type} (n : Nat) : Nat → List α → List (List α)
  | 0, _ => []
  | _ + 1, [] => []
  | f + 1, a :: t => (a :: t).take n :: chunkGo n f ((a :: t).drop n)

/-- Modelled from the spec: `utils.chunk_list`, the EmbeddingBatcher,
is repository code that is not under `src/`.  Per spec section 4.3 it
partitions a document sequence into consecutive batches of `n`
documents, the final batch possibly shorter, with `batchSize > 0` as
precondition (an empty input yields no batches). -/
def chunk_list {α : Type} (l : List α) (n : Nat) : List (List α) :=
  if n = 0 then [] else chunkGo n l.length l

/-- Record loading in `KnowledgeIndexer.__init__` (lines 36-51).  The
argument is the on-disk content of `index_record.json` (`none` when the
file is absent).  A missing file is created empty by `touch`, and
`json.load` of an empty file raises `JSONDecodeError`, which is caught
and recovered to an empty `indexed_doc`; a parsed object is subscripted
with `"indexed_doc"` (raising `KeyError` when the key is missing) and
its value is passed through `set(...)`. -/
def initIndexer (onDisk : Option RecordFileContent) : PyResult (List String) :=
  match onDisk with
  | none => .ok []
  | some .unparseable => .ok []
  | some (.parsed fields) =>
    match fields.lookup "indexed_doc" with
    | none => .error (PyErr.keyError "indexed_doc")
    | some docs => .ok docs.dedup

/-- `KnowledgeIndexer._init_loader` (lines 81-117).  Returns the trace
of download events together with the result `(loader, source,
filepath)`.  Note that the code initializes `filepath = ""` and never
reassigns it (the local path returned by the downloader is bound to
`path`), and that `source = path` at line 112 overwrites the source
returned by the downloader.  The surrounding `try` catches any
`ValueError` and re-raises the generic `ValueError` of line 116. -/
def initLoader (env : Env) (path : String) :
    List Event × PyResult (Loader × String × String) :=
  let dl := env.isAbsUrl path
  let path1 := if dl then (env.download path).2 else path
  let evs : List Event :=
    if dl then [Event.downloadFile path (env.download path).2] else []
  let inner : PyResult (Loader × String × String) :=
    if env.fileExists path1 then
      let extension := splitext_ext path1
      if extension ∈ _FILE_EXTENSIONS then
        let loader : Loader :=
          if extension = ".mobi" then { kind := LoaderKind.mobi, path := path1 }
          else if extension = ".epub" then { kind := LoaderKind.epub, path := path1 }
          else { kind := LoaderKind.unstructured, path := path1 }
        .ok (loader, path1, "")
      else .error (PyErr.unsupportedExtension path1)
    else .error (PyErr.fileNotFound path1)
  match inner with
  | .error e =>
    (evs, .error (if e.isValueErrorKind then PyErr.loaderInitFailure else e))
  | .ok r => (evs, .ok r)

/-- `KnowledgeIndexer._extract_data` (lines 119-138): reject
`chunk_size <= chunk_overlap`, then delegate to the external
`load_and_split`. -/
def extractData (env : Env) (loader : Loader) (chunk_size chunk_overlap : Int) :
    PyResult (List Document) :=
  if chunk_size ≤ chunk_overlap then
    .error (PyErr.configError chunk_size chunk_overlap)
  else
    .ok (env.loadDocs loader chunk_size chunk_overlap)

/-- The batch loop of `_index_embeddings` (lines 163-172): for each
batch in order, `FAISS.from_documents` builds a sub-index from the
batch (or raises), which is merged into the accumulator `db` (or
becomes the accumulator when `db` is `None`). -/
def runBatches (env : Env) :
    Option (List Document) → Nat → List (List Document) →
    List Event × PyResult (Option (List Document))
  | db, _, [] => ([], .ok db)
  | db, idx, b :: bs =>
    if env.embedFails idx b then
      ([Event.embedCall idx b], .error PyErr.embeddingFailure)
    else
      let db' : Option (List Document) :=
        match db with
        | some d => some (d ++ b)
        | none => some b
      let r := runBatches env db' (idx + 1) bs
      (Event.embedCall idx b :: r.1, r.2)

/-- Trace of the conditional `FAISS.load_local` at lines 159-161: the
index is loaded exactly when its directory exists on disk. -/
def loadEvs (st : IndexerState) : List Event :=
  match st.diskIndex with
  | some _ => [Event.loadIndex]
  | none => []

/-- `KnowledgeIndexer._index_embeddings` (lines 140-183): dedup gate on
the in-memory record, per-document processing, optional
`FAISS.load_local`, the batch loop, `db.save_local`, and finally the
record update (add the source, serialize as a list, unlink the old
file, write the new one). -/
def indexEmbeddings (env : Env) (st : IndexerState) (documents : List Document)
    (source : String) (batch_size : Nat) : List Event × PyResult IndexerState :=
  if source ∈ st.indexedDoc then
    ([], .ok st)
  else
    let docs := documents.map (processDoc source)
    let r := runBatches env st.diskIndex 0 (chunk_list docs batch_size)
    match r.2 with
    | .error e => (loadEvs st ++ r.1, .error e)
    | .ok none => (loadEvs st ++ r.1, .error PyErr.noneSaveLocal)
    | .ok (some d) =>
      let mem' := st.indexedDoc.insert source
      (loadEvs st ++ r.1 ++
        [Event.saveIndex d, Event.unlinkRecord, Event.writeRecord mem'],
       .ok { indexedDoc := mem', diskIndex := some d,
             diskRecord := some (RecordFileContent.parsed [("indexed_doc", mem')]) })

/-- `KnowledgeIndexer.index` (lines 53-79): loader initialization,
extraction, embedding/persisting, then the (attempted) removal of the
downloaded file, and the fixed success status string. -/
def KnowledgeIndexer.index (env : Env) (st : IndexerState) (path : String)
    (chunk_size chunk_overlap : Int) (batch_size : Nat) :
    List Event × PyResult (String × IndexerState) :=
  match initLoader env path with
  | (evs1, .error e) => (evs1, .error e)
  | (evs1, .ok (loader, source, filepath)) =>
    match extractData env loader chunk_size chunk_overlap with
    | .error e => (evs1, .error e)
    | .ok documents =>
      match indexEmbeddings env st documents source batch_size with
      | (evs2, .error e) => (evs1 ++ evs2, .error e)
      | (evs2, .ok st') =>
        let evs3 : List Event :=
          if env.fileExists filepath then [Event.removeFile filepath] else []
        (evs1 ++ evs2 ++ evs3, .ok ("Index finished.", st'))

/-- Successor of the accumulator (the `new_db` / `merge_from` step of
the loop body) as performed by `runBatches` when a batch succeeds. -/
def mergeStep (db : Option (List Document)) (b : List Document) :
    Option (List Document) :=
  match db with
  | some d => some (d ++ b)
  | none => some b

/-- The accumulator produced by a fully successful batch loop: each
batch is appended in order; an absent accumulator becomes the first
sub-index. -/
def mergeAll (db : Option (List Document)) (bs : List (List Document)) :
    Option (List Document) :=
  bs.foldl (fun o b => some (o.getD [] ++ b)) db

/-! ### Concrete environments used to exercise the pipeline -/

/-- A raw extracted chunk used in concrete runs. -/
def demoDoc : Document := { page_content := "hi, you!", metadata := [] }

/-- What `_index_embeddings` turns `demoDoc` into when its source is
`"a.txt"`. -/
def demoDocProcessed : Document :=
  { page_content := "hi you", metadata := [("source", "a.txt")] }

/-- Environment with one local file `a.txt` extracting to one chunk and
an embedding capability that never fails. -/
def env1 : Env :=
  { isAbsUrl := fun _ => false,
    download := fun u => (u, u),
    fileExists := fun p => decide (p = "a.txt"),
    loadDocs := fun _ _ _ => [demoDoc],
    embedFails := fun _ _ => false }

/-- Fresh indexer state: empty in-memory record, no index on disk, the
record file `touch`ed empty by `__init__`. -/
def st0 : IndexerState :=
  { indexedDoc := [], diskIndex := none,
    diskRecord := some RecordFileContent.unparseable }

/-- The state after one successful `index("a.txt")` call in `env1`. -/
def st1 : IndexerState :=
  { indexedDoc := ["a.txt"], diskIndex := some [demoDocProcessed],
    diskRecord := some (RecordFileContent.parsed [("indexed_doc", ["a.txt"])]) }

/-- Environment with one local file `b.txt` extracting to five chunks
and an embedding capability that raises exactly on the third batch. -/
def env3 : Env :=
  { isAbsUrl := fun _ => false,
    download := fun u => (u, u),
    fileExists := fun p => decide (p = "b.txt"),
    loadDocs := fun _ _ _ =>
      [{ page_content := "a", metadata := [] },
       { page_content := "b", metadata := [] },
       { page_content := "c", metadata := [] },
       { page_content := "d", metadata := [] },
       { page_content := "e", metadata := [] }],
    embedFails := fun i _ => decide (i = 2) }

/-- Environment with one local file whose extension `.docx` is outside
the allow-list. -/
def env6 : Env :=
  { isAbsUrl := fun _ => false,
    download := fun u => (u, u),
    fileExists := fun p => decide (p = "notes.docx"),
    loadDocs := fun _ _ _ => [],
    embedFails := fun _ _ => false }

/-- Environment where the input is a url whose download yields the
local file `/tmp/x.pdf`. -/
def env8 : Env :=
  { isAbsUrl := fun p => decide (p = "http://example.com/x.pdf"),
    download := fun _ => ("http://example.com/x.pdf", "/tmp/x.pdf"),
    fileExists := fun p => decide (p = "/tmp/x.pdf"),
    loadDocs := fun _ _ _ => [demoDoc],
    embedFails := fun _ _ => false }

/-- Environment with one local file `a.txt` whose extraction yields no
documents at all. -/
def env9 : Env :=
  { isAbsUrl := fun _ => false,
    download := fun u => (u, u),
    fileExists := fun p => decide (p = "a.txt"),
    loadDocs := fun _ _ _ => [],
    embedFails := fun _ _ => false }

/-! ### Basic lemmas about the batcher -/

theorem chunkGo_fuel {α : Type} (n : Nat) (hn : 1 ≤ n) :
    ∀ (f₁ : Nat) (l : List α) (f₂ : Nat), l.length ≤ f₁ → l.length ≤ f₂ →
      chunkGo n f₁ l = chunkGo n f₂ l := by
  intro f₁
  induction f₁ with
  | zero =>
    intro l f₂ h₁ _
    have hl : l = [] := List.eq_nil_of_length_eq_zero (Nat.le_zero.mp h₁)
    subst hl
    cases f₂ <;> simp [chunkGo]
  | succ g ih =>
    intro l f₂ h₁ h₂
    cases l with
    | nil => cases f₂ <;> simp [chunkGo]
    | cons a t =>
      cases f₂ with
      | zero => simp at h₂
      | succ g₂ =>
        simp only [chunkGo]
        congr 1
        have hd : ((a :: t).drop n).length = t.length + 1 - n := by
          simp [List.length_drop]
        simp only [List.length_cons] at h₁ h₂
        apply ih
        · rw [hd]; omega
        · rw [hd]; omega

theorem chunk_list_nil {α : Type} (n : Nat) : chunk_list ([] : List α) n = [] := by
  cases n <;> simp [chunk_list, chunkGo]

theorem chunk_list_zero {α : Type} (l : List α) : chunk_list l 0 = [] := by
  simp [chunk_list]

theorem chunk_list_cons {α : Type} (a : α) (t : List α) (n : Nat) :
    chunk_list (a :: t) (n + 1) =
      (a :: t).take (n + 1) :: chunk_list ((a :: t).drop (n + 1)) (n + 1) := by
  unfold chunk_list
  simp only [if_neg (Nat.succ_ne_zero n)]
  simp only [List.length_cons, chunkGo]
  congr 1
  apply chunkGo_fuel (n + 1) (Nat.succ_le_succ (Nat.zero_le n))
  · simp only [List.length_drop, List.length_cons]
    omega
  · exact Nat.le_refl _

theorem chunk_list_flatten {α : Type} :
    ∀ (l : List α) (n : Nat), (chunk_list l (n + 1)).flatten = l
  | [], _ => by rw [chunk_list_nil]; rfl
  | a :: t, n => by
    rw [chunk_list_cons]
    simp only [List.flatten_cons]
    rw [chunk_list_flatten ((a :: t).drop (n + 1)) n, List.take_append_drop]
termination_by l _ => l.length
decreasing_by
  simp only [List.length_drop, List.length_cons]
  omega

theorem mem_of_mem_chunk_list {α : Type} {b l : List α} {x : α} {n : Nat}
    (hb : b ∈ chunk_list l (n + 1)) (hx : x ∈ b) : x ∈ l := by
  have : x ∈ (chunk_list l (n + 1)).flatten := List.mem_flatten.mpr ⟨b, hb, hx⟩
  rwa [chunk_list_flatten] at this

theorem chunk_list_eq_nil_iff {α : Type} (l : List α) (n : Nat) :
    chunk_list l (n + 1) = [] ↔ l = [] := by
  constructor
  · intro h
    have := chunk_list_flatten l n
    rw [h] at this
    simpa using this.symm
  · intro h
    subst h
    exact chunk_list_nil _

/-! ### Lemmas about the batch loop -/

theorem mergeAll_some (bs : List (List Document)) :
    ∀ l, mergeAll (some l) bs = some (l ++ bs.flatten) := by
  induction bs with
  | nil => intro l; simp [mergeAll]
  | cons b bs ih =>
    intro l
    have h : mergeAll (some l) (b :: bs) = mergeAll (some (l ++ b)) bs := rfl
    rw [h, ih (l ++ b)]
    simp [List.append_assoc]

theorem mergeAll_none_cons (b : List Document) (bs : List (List Document)) :
    mergeAll none (b :: bs) = some (b ++ bs.flatten) := by
  have h : mergeAll none (b :: bs) = mergeAll (some b) bs := rfl
  rw [h, mergeAll_some]

theorem runBatches_nil (env : Env) (db : Option (List Document)) (idx : Nat) :
    runBatches env db idx [] = ([], .ok db) := rfl

theorem runBatches_cons_fail (env : Env) (db : Option (List Document))
    (idx : Nat) (b : List Document) (bs : List (List Document))
    (h : env.embedFails idx b = true) :
    runBatches env db idx (b :: bs) =
      ([Event.embedCall idx b], .error PyErr.embeddingFailure) := by
  simp [runBatches, h]

theorem runBatches_cons_ok (env : Env) (db : Option (List Document))
    (idx : Nat) (b : List Document) (bs : List (List Document))
    (h : env.embedFails idx b = false) :
    runBatches env db idx (b :: bs) =
      (Event.embedCall idx b :: (runBatches env (mergeStep db b) (idx + 1) bs).1,
       (runBatches env (mergeStep db b) (idx + 1) bs).2) := by
  cases db <;> simp [runBatches, mergeStep, h]

theorem mergeAll_step (db : Option (List Document)) (b : List Document)
    (bs : List (List Document)) :
    mergeAll db (b :: bs) = mergeAll (mergeStep db b) bs := by
  cases db <;> rfl

theorem runBatches_ok_eq (env : Env) :
    ∀ (bs : List (List Document)) (db : Option (List Document)) (idx : Nat)
      (evs : List Event) (db' : Option (List Document)),
      runBatches env db idx bs = (evs, .ok db') → db' = mergeAll db bs := by
  intro bs
  induction bs with
  | nil =>
    intro db idx evs db' h
    rw [runBatches_nil] at h
    simp only [Prod.mk.injEq] at h
    cases h.2
    rfl
  | cons b bs ih =>
    intro db idx evs db' h
    by_cases hf : env.embedFails idx b
    · rw [runBatches_cons_fail env db idx b bs hf] at h
      simp only [Prod.mk.injEq] at h
      exact absurd h.2 (by intro hc; cases hc)
    · rw [runBatches_cons_ok env db idx b bs (Bool.not_eq_true _ ▸ hf)] at h
      simp only [Prod.mk.injEq] at h
      obtain ⟨-, h2⟩ := h
      rw [mergeAll_step]
      exact ih (mergeStep db b) (idx + 1) _ db' (by rw [← h2])

theorem runBatches_events (env : Env) :
    ∀ (bs : List (List Document)) (db : Option (List Document)) (idx : Nat),
      ∀ e ∈ (runBatches env db idx bs).1, e.isEmbedCall = true := by
  intro bs
  induction bs with
  | nil => intro db idx e he; rw [runBatches_nil] at he; simp at he
  | cons b bs ih =>
    intro db idx e he
    by_cases hf : env.embedFails idx b
    · rw [runBatches_cons_fail env db idx b bs hf] at he
      simp at he
      subst he
      rfl
    · rw [runBatches_cons_ok env db idx b bs (Bool.not_eq_true _ ▸ hf)] at he
      simp only [List.mem_cons] at he
      rcases he with rfl | he
      · rfl
      · exact ih (mergeStep db b) (idx + 1) e he

theorem runBatches_error (env : Env) :
    ∀ (bs : List (List Document)) (db : Option (List Document)) (idx : Nat)
      (evs : List Event) (e : PyErr),
      runBatches env db idx bs = (evs, .error e) → e = PyErr.embeddingFailure := by
  intro bs
  induction bs with
  | nil =>
    intro db idx evs e h
    rw [runBatches_nil] at h
    simp only [Prod.mk.injEq] at h
    exact absurd h.2 (by intro hc; cases hc)
  | cons b bs ih =>
    intro db idx evs e h
    by_cases hf : env.embedFails idx b
    · rw [runBatches_cons_fail env db idx b bs hf] at h
      simp only [Prod.mk.injEq] at h
      cases h.2
      rfl
    · rw [runBatches_cons_ok env db idx b bs (Bool.not_eq_true _ ▸ hf)] at h
      simp only [Prod.mk.injEq] at h
      obtain ⟨-, h2⟩ := h
      exact ih (mergeStep db b) (idx + 1) _ e (by rw [← h2])

theorem runBatches_batch_mem (env : Env) :
    ∀ (bs : List (List Document)) (db : Option (List Document)) (idx : Nat)
      (i : Nat) (b : List Document),
      Event.embedCall i b ∈ (runBatches env db idx bs).1 → b ∈ bs := by
  intro bs
  induction bs with
  | nil => intro db idx i b h; rw [runBatches_nil] at h; simp at h
  | cons b0 bs ih =>
    intro db idx i b h
    by_cases hf : env.embedFails idx b0
    · rw [runBatches_cons_fail env db idx b0 bs hf] at h
      simp only [List.mem_singleton, Event.embedCall.injEq] at h
      exact h.2 ▸ List.mem_cons_self _ _
    · rw [runBatches_cons_ok env db idx b0 bs (Bool.not_eq_true _ ▸ hf)] at h
      simp only [List.mem_cons, Event.embedCall.injEq] at h
      rcases h with ⟨-, rfl⟩ | h
      · exact List.mem_cons_self _ _
      · exact List.mem_cons_of_mem _ (ih (mergeStep db b0) (idx + 1) i b h)

theorem runBatches_fail_at (env : Env) :
    ∀ (bs : List (List Document)) (db : Option (List Document)) (idx : Nat)
      (k : Nat), k < bs.length →
      (∀ i, i < k → env.embedFails (idx + i) (bs.getD i []) = false) →
      env.embedFails (idx + k) (bs.getD k []) = true →
      (runBatches env db idx bs).2 = .error PyErr.embeddingFailure := by
  intro bs
  induction bs with
  | nil => intro db idx k hk; simp at hk
  | cons b bs ih =>
    intro db idx k hk hprev hfail
    cases k with
    | zero =>
      simp only [List.getD_cons_zero, Nat.add_zero] at hfail
      rw [runBatches_cons_fail env db idx b bs hfail]
    | succ k =>
      have h0 : env.embedFails idx b = false := by
        have := hprev 0 (Nat.succ_pos k)
        simpa using this
      rw [runBatches_cons_ok env db idx b bs h0]
      apply ih (mergeStep db b) (idx + 1) k (by simpa using hk)
      · intro i hi
        have := hprev (i + 1) (Nat.succ_lt_succ hi)
        simpa [Nat.add_comm, Nat.add_assoc, Nat.add_left_comm] using this
      · have := hfail
        simpa [Nat.add_comm, Nat.add_assoc, Nat.add_left_comm] using this

/-! ### Lemmas about the pipeline stages -/

theorem initLoader_fst (env : Env) (path : String) :
    (initLoader env path).1 =
      if env.isAbsUrl path then [Event.downloadFile path (env.download path).2]
      else [] := by
  unfold initLoader
  dsimp only
  split <;> rfl

theorem initLoader_events (env : Env) (path : String) :
    ∀ e ∈ (initLoader env path).1, ∃ u p, e = Event.downloadFile u p := by
  intro e he
  rw [initLoader_fst] at he
  by_cases hd : env.isAbsUrl path
  · rw [if_pos hd] at he
    simp only [List.mem_singleton] at he
    exact ⟨path, (env.download path).2, he⟩
  · rw [if_neg hd] at he
    simp at he

theorem indexEmbeddings_skip (env : Env) (st : IndexerState)
    (documents : List Document) (source : String) (bs : Nat)
    (h : source ∈ st.indexedDoc) :
    indexEmbeddings env st documents source bs = ([], .ok st) := by
  unfold indexEmbeddings
  rw [if_pos h]

theorem indexEmbeddings_of_batches_error (env : Env) (st : IndexerState)
    (documents : List Document) (source : String) (bs : Nat) (e : PyErr)
    (hns : source ∉ st.indexedDoc)
    (h : (runBatches env st.diskIndex 0
        (chunk_list (documents.map (processDoc source)) bs)).2 = .error e) :
    indexEmbeddings env st documents source bs =
      (loadEvs st ++ (runBatches env st.diskIndex 0
        (chunk_list (documents.map (processDoc source)) bs)).1, .error e) := by
  unfold indexEmbeddings
  rw [if_neg hns]
  dsimp only
  rw [h]

theorem indexEmbeddings_of_batches_none (env : Env) (st : IndexerState)
    (documents : List Document) (source : String) (bs : Nat)
    (hns : source ∉ st.indexedDoc)
    (h : (runBatches env st.diskIndex 0
        (chunk_list (documents.map (processDoc source)) bs)).2 = .ok none) :
    indexEmbeddings env st documents source bs =
      (loadEvs st ++ (runBatches env st.diskIndex 0
        (chunk_list (documents.map (processDoc source)) bs)).1,
       .error PyErr.noneSaveLocal) := by
  unfold indexEmbeddings
  rw [if_neg hns]
  dsimp only
  rw [h]

theorem indexEmbeddings_of_batches_ok (env : Env) (st : IndexerState)
    (documents : List Document) (source : String) (bs : Nat) (d : List Document)
    (hns : source ∉ st.indexedDoc)
    (h : (runBatches env st.diskIndex 0
        (chunk_list (documents.map (processDoc source)) bs)).2 = .ok (some d)) :
    indexEmbeddings env st documents source bs =
      (loadEvs st ++ (runBatches env st.diskIndex 0
          (chunk_list (documents.map (processDoc source)) bs)).1 ++
        [Event.saveIndex d, Event.unlinkRecord,
         Event.writeRecord (st.indexedDoc.insert source)],
       .ok { indexedDoc := st.indexedDoc.insert source, diskIndex := some d,
             diskRecord := some (RecordFileContent.parsed
               [("indexed_doc", st.indexedDoc.insert source)]) }) := by
  unfold indexEmbeddings
  rw [if_neg hns]
  dsimp only
  rw [h]

theorem indexEmbeddings_ok_inv (env : Env) (st : IndexerState)
    (documents : List Document) (source : String) (bs : Nat)
    (evs : List Event) (st' : IndexerState)
    (hns : source ∉ st.indexedDoc)
    (h : indexEmbeddings env st documents source bs = (evs, .ok st')) :
    ∃ d, (runBatches env st.diskIndex 0
        (chunk_list (documents.map (processDoc source)) bs)).2 = .ok (some d) ∧
      st' = { indexedDoc := st.indexedDoc.insert source, diskIndex := some d,
              diskRecord := some (RecordFileContent.parsed
                [("indexed_doc", st.indexedDoc.insert source)]) } ∧
      evs = loadEvs st ++ (runBatches env st.diskIndex 0
          (chunk_list (documents.map (processDoc source)) bs)).1 ++
        [Event.saveIndex d, Event.unlinkRecord,
         Event.writeRecord (st.indexedDoc.insert source)] := by
  rcases hr : (runBatches env st.diskIndex 0
      (chunk_list (documents.map (processDoc source)) bs)).2 with a | e
  case error =>
    rw [indexEmbeddings_of_batches_error env st documents source bs _ hns hr] at h
    simp only [Prod.mk.injEq] at h
    exact absurd h.2 (by intro hc; cases hc)
  case ok =>
    cases a with
    | none =>
      rw [indexEmbeddings_of_batches_none env st documents source bs hns hr] at h
      simp only [Prod.mk.injEq] at h
      exact absurd h.2 (by intro hc; cases hc)
    | some d =>
      rw [indexEmbeddings_of_batches_ok env st documents source bs d hns hr] at h
      simp only [Prod.mk.injEq] at h
      obtain ⟨h1, h2⟩ := h
      cases h2
      exact ⟨d, rfl, rfl, h1.symm⟩

/-! ### Unfolding lemmas for `index` -/

theorem index_of_loader_error (env : Env) (st : IndexerState) (path : String)
    (cs co : Int) (bs : Nat) (evs1 : List Event) (e : PyErr)
    (h : initLoader env path = (evs1, .error e)) :
    KnowledgeIndexer.index env st path cs co bs = (evs1, .error e) := by
  unfold KnowledgeIndexer.index
  rw [h]

theorem index_of_config_error (env : Env) (st : IndexerState) (path : String)
    (cs co : Int) (bs : Nat) (evs1 : List Event) (loader : Loader)
    (source fp : String)
    (h1 : initLoader env path = (evs1, .ok (loader, source, fp)))
    (hle : cs ≤ co) :
    KnowledgeIndexer.index env st path cs co bs =
      (evs1, .error (PyErr.configError cs co)) := by
  unfold KnowledgeIndexer.index
  rw [h1]
  have hx : extractData env loader cs co = .error (PyErr.configError cs co) := by
    unfold extractData
    rw [if_pos hle]
  dsimp only
  rw [hx]

theorem extractData_ok (env : Env) (loader : Loader) (cs co : Int)
    (hco : co < cs) :
    extractData env loader cs co = .ok (env.loadDocs loader cs co) := by
  unfold extractData
  rw [if_neg (not_le.mpr hco)]

theorem index_of_emb_error (env : Env) (st : IndexerState) (path : String)
    (cs co : Int) (bs : Nat) (evs1 evs2 : List Event) (loader : Loader)
    (source fp : String) (e : PyErr)
    (h1 : initLoader env path = (evs1, .ok (loader, source, fp)))
    (hco : co < cs)
    (h2 : indexEmbeddings env st (env.loadDocs loader cs co) source bs =
      (evs2, .error e)) :
    KnowledgeIndexer.index env st path cs co bs = (evs1 ++ evs2, .error e) := by
  unfold KnowledgeIndexer.index
  rw [h1]
  dsimp only
  rw [extractData_ok env loader cs co hco]
  dsimp only
  rw [h2]

theorem index_of_emb_ok (env : Env) (st : IndexerState) (path : String)
    (cs co : Int) (bs : Nat) (evs1 evs2 : List Event) (loader : Loader)
    (source fp : String) (st' : IndexerState)
    (h1 : initLoader env path = (evs1, .ok (loader, source, fp)))
    (hco : co < cs)
    (h2 : indexEmbeddings env st (env.loadDocs loader cs co) source bs =
      (evs2, .ok st')) :
    KnowledgeIndexer.index env st path cs co bs =
      (evs1 ++ evs2 ++
        (if env.fileExists fp then [Event.removeFile fp] else []),
       .ok ("Index finished.", st')) := by
  unfold KnowledgeIndexer.index
  rw [h1]
  dsimp only
  rw [extractData_ok env loader cs co hco]
  dsimp only
  rw [h2]

/-! ### Small helpers about events -/

theorem loadEvs_mem (st : IndexerState) :
    ∀ e ∈ loadEvs st, e = Event.loadIndex := by
  intro e he
  rcases st with ⟨a, di, r⟩
  cases di <;> simp_all [loadEvs]

theorem embedCall_not_persist {e : Event} (h : e.isEmbedCall = true) :
    e.isSaveIndex = false ∧ e.isWriteRecord = false ∧ e.isUnlinkRecord = false := by
  cases e <;> simp_all [Event.isEmbedCall, Event.isSaveIndex, Event.isWriteRecord,
    Event.isUnlinkRecord]

theorem downloadFile_not_persist (u p : String) :
    (Event.downloadFile u p).isEmbedCall = false ∧
    (Event.downloadFile u p).isSaveIndex = false ∧
    (Event.downloadFile u p).isWriteRecord = false ∧
    (Event.downloadFile u p).isUnlinkRecord = false :=
  ⟨rfl, rfl, rfl, rfl⟩

set_option maxRecDepth 20000

/-! ### The claims -/

/-- Claim C4: loading the index record succeeds with an empty
`indexed_doc` set both when `index_record.json` is absent (the file is
then created empty, and an empty file is not parseable JSON) and when
it exists with unparseable contents; the `JSONDecodeError` is swallowed
and replaced by the empty record. -/
theorem corrupt_record_loads_empty :
    initIndexer none = .ok [] ∧
    initIndexer (some RecordFileContent.unparseable) = .ok [] :=
  ⟨rfl, rfl⟩

/-- Claim C10: when `index_record.json` holds parseable JSON (an
object) without the `"indexed_doc"` key, the subscript
`self.index_record["indexed_doc"]` raises `KeyError`: the tolerant
recovery of `__init__` applies only to a `JSONDecodeError`, not to
parseable JSON of the wrong shape. -/
theorem parseable_record_missing_key_raises
    (fields : List (String × List String))
    (h : fields.lookup "indexed_doc" = none) :
    initIndexer (some (RecordFileContent.parsed fields)) =
      .error (PyErr.keyError "indexed_doc") := by
  unfold initIndexer
  dsimp only
  rw [h]

/-- Witness for C10 at the concrete record `{}` (a parsed object with
no fields at all). -/
theorem parseable_record_missing_key_raises_witness :
    initIndexer (some (RecordFileContent.parsed [])) =
      .error (PyErr.keyError "indexed_doc") :=
  parseable_record_missing_key_raises [] rfl

/-- Claim C5: for any resolved input (a successful `_init_loader`) and
any `chunk_size ≤ chunk_overlap`, `index()` raises the chunking
configuration `ValueError` of `_extract_data` and the trace contains no
embedding call (only the possible download from path resolution).  The
check is `<=`, so equality is rejected too (the witness instantiates
`chunk_size = chunk_overlap = 100`). -/
theorem chunk_config_rejected_before_embedding
    (env : Env) (st : IndexerState) (path : String) (cs co : Int) (bs : Nat)
    (evs1 : List Event) (loader : Loader) (source fp : String)
    (h1 : initLoader env path = (evs1, .ok (loader, source, fp)))
    (hle : cs ≤ co) :
    KnowledgeIndexer.index env st path cs co bs =
      (evs1, .error (PyErr.configError cs co)) ∧
    ∀ e ∈ evs1, e.isEmbedCall = false := by
  refine ⟨index_of_config_error env st path cs co bs evs1 loader source fp h1 hle, ?_⟩
  intro e he
  have hev := initLoader_events env path
  rw [h1] at hev
  obtain ⟨u, p, rfl⟩ := hev e he
  rfl

/-- Witness for C5 at `chunk_size = chunk_overlap = 100` on a real
file: the strict boundary case is rejected with no embedding call. -/
theorem chunk_config_rejected_before_embedding_witness :
    KnowledgeIndexer.index env1 st0 "a.txt" 100 100 50 =
      ([], .error (PyErr.configError 100 100)) ∧
    ∀ e ∈ ([] : List Event), e.isEmbedCall = false :=
  chunk_config_rejected_before_embedding env1 st0 "a.txt" 100 100 50 []
    { kind := LoaderKind.unstructured, path := "a.txt" } "a.txt" ""
    (by decide) (by decide)

/-- Claim C1, corrected part (counterexample): the claim asserts that a
second `index(path)` call on an already-indexed source returns a
"skipped" status distinct from the success status of a first call.  In
the code the skip is only logged: `index()` returns the same
`"Index finished."` string on both calls.  Concretely, the first call
on a fresh state and the second call on the resulting state both return
`"Index finished."`, so no distinct skipped status exists. -/
theorem second_index_call_same_status :
    KnowledgeIndexer.index env1 st0 "a.txt" 1000 100 50 =
      ([Event.embedCall 0 [demoDocProcessed], Event.saveIndex [demoDocProcessed],
        Event.unlinkRecord, Event.writeRecord ["a.txt"]],
       .ok ("Index finished.", st1)) ∧
    KnowledgeIndexer.index env1 st1 "a.txt" 1000 100 50 =
      ([], .ok ("Index finished.", st1)) := by
  constructor
  · decide
  · decide

/-- Claim C1, amended: for every path whose source id is already in the
in-memory record, a second `index(path)` call performs no embedding
call, persists nothing (no index save, no record write), leaves the
state unchanged — but returns the same `"Index finished."` status as a
successful first call (the skip is only logged, there is no distinct
"skipped" status). -/
theorem index_skip_no_embed_same_status
    (env : Env) (st : IndexerState) (path : String) (cs co : Int) (bs : Nat)
    (evs1 : List Event) (loader : Loader) (source fp : String)
    (h1 : initLoader env path = (evs1, .ok (loader, source, fp)))
    (hco : co < cs)
    (hmem : source ∈ st.indexedDoc) :
    ∃ evs, KnowledgeIndexer.index env st path cs co bs =
        (evs, .ok ("Index finished.", st)) ∧
      ∀ e ∈ evs, e.isEmbedCall = false ∧ e.isSaveIndex = false ∧
        e.isWriteRecord = false := by
  have h2 := indexEmbeddings_skip env st (env.loadDocs loader cs co) source bs hmem
  have h3 := index_of_emb_ok env st path cs co bs evs1 [] loader source fp st h1 hco h2
  refine ⟨_, h3, ?_⟩
  intro e he
  rcases List.mem_append.mp he with he' | he'
  · rcases List.mem_append.mp he' with he'' | he''
    · have hev := initLoader_events env path
      rw [h1] at hev
      obtain ⟨u, p, rfl⟩ := hev e he''
      exact ⟨rfl, rfl, rfl⟩
    · simp at he''
  · by_cases hf : env.fileExists fp
    · rw [if_pos hf] at he'
      simp only [List.mem_singleton] at he'
      subst he'
      exact ⟨rfl, rfl, rfl⟩
    · rw [if_neg hf] at he'
      simp at he'

/-- Witness for the amended C1: in `env1`, re-indexing `a.txt` on the
state `st1` (where it is already recorded) embeds nothing, persists
nothing and returns the unchanged state with the first call's status. -/
theorem index_skip_no_embed_same_status_witness :
    ∃ evs, KnowledgeIndexer.index env1 st1 "a.txt" 1000 100 50 =
        (evs, .ok ("Index finished.", st1)) ∧
      ∀ e ∈ evs, e.isEmbedCall = false ∧ e.isSaveIndex = false ∧
        e.isWriteRecord = false :=
  index_skip_no_embed_same_status env1 st1 "a.txt" 1000 100 50 []
    { kind := LoaderKind.unstructured, path := "a.txt" } "a.txt" ""
    (by decide) (by decide) (by decide)

/-- Claim C9: when extraction yields no documents, the source is new,
and no vector index exists on disk yet, the batch loop never runs, `db`
stays `None`, and `db.save_local` raises the `AttributeError` on
`None` — `index()` fails instead of persisting an empty index or
returning a status, and nothing is saved or recorded. -/
theorem empty_docs_no_index_attribute_error
    (env : Env) (st : IndexerState) (path : String) (cs co : Int) (bs : Nat)
    (evs1 : List Event) (loader : Loader) (source fp : String)
    (h1 : initLoader env path = (evs1, .ok (loader, source, fp)))
    (hco : co < cs)
    (hdocs : env.loadDocs loader cs co = [])
    (hnew : source ∉ st.indexedDoc)
    (hdisk : st.diskIndex = none) :
    KnowledgeIndexer.index env st path cs co bs =
      (evs1, .error PyErr.noneSaveLocal) ∧
    ∀ e ∈ evs1, e.isSaveIndex = false ∧ e.isWriteRecord = false := by
  have hb : (runBatches env st.diskIndex 0
      (chunk_list ((env.loadDocs loader cs co).map (processDoc source)) bs)).2 =
        .ok none := by
    rw [hdocs, hdisk]
    simp only [List.map_nil, chunk_list_nil, runBatches_nil]
  have he := indexEmbeddings_of_batches_none env st (env.loadDocs loader cs co)
    source bs hnew hb
  have h3 := index_of_emb_error env st path cs co bs evs1 _ loader source fp
    PyErr.noneSaveLocal h1 hco he
  constructor
  · rw [h3]
    congr 1
    have hl : loadEvs st = [] := by
      rcases st with ⟨a, di, r⟩
      cases hdisk
      rfl
    have hr : (runBatches env st.diskIndex 0
        (chunk_list ((env.loadDocs loader cs co).map (processDoc source)) bs)).1 =
          [] := by
      rw [hdocs, hdisk]
      simp only [List.map_nil, chunk_list_nil, runBatches_nil]
    rw [hl, hr]
    simp
  · intro e he'
    have hev := initLoader_events env path
    rw [h1] at hev
    obtain ⟨u, p, rfl⟩ := hev e he'
    exact ⟨rfl, rfl⟩

/-- Witness for C9: in `env9` (extraction yields `[]`) on the fresh
state `st0`, indexing `a.txt` fails with the `AttributeError` on
`None`. -/
theorem empty_docs_no_index_attribute_error_witness :
    KnowledgeIndexer.index env9 st0 "a.txt" 1000 100 50 =
      ([], .error PyErr.noneSaveLocal) ∧
    ∀ e ∈ ([] : List Event), e.isSaveIndex = false ∧ e.isWriteRecord = false :=
  empty_docs_no_index_attribute_error env9 st0 "a.txt" 1000 100 50 []
    { kind := LoaderKind.unstructured, path := "a.txt" } "a.txt" ""
    (by decide) (by decide) (by decide) (by decide) (by decide)

/-- Claim C6, corrected part (counterexample): the claim asserts that
indexing an existing local file with an extension outside the
allow-list (here `notes.docx`) fails with the unsupported-extension
error.  In the code that `ValueError` is caught by the
`except ValueError` in `_init_loader` and re-raised as the generic
loader-initialization `ValueError` of line 116, so the surfaced error
is not the unsupported-extension one. -/
theorem unsupported_extension_error_wrapped :
    KnowledgeIndexer.index env6 st0 "notes.docx" 1000 100 50 =
      ([], .error PyErr.loaderInitFailure) ∧
    (KnowledgeIndexer.index env6 st0 "notes.docx" 1000 100 50).2 ≠
      .error (PyErr.unsupportedExtension "notes.docx") := by
  constructor
  · decide
  · decide

/-- Claim C6, amended: (1) for every existing local (non-url) file
whose extension is outside the allow-list, `index()` fails before any
embedding call (indeed with an empty trace) with the generic
loader-initialization `ValueError` that wraps the unsupported-extension
error; (2) every existing local file whose extension is inside the
allow-list passes the extension check and `_init_loader` succeeds; and
(3) the allow-list is exactly the fixed set
`{.pdf, .mobi, .epub, .txt, .html}`. -/
theorem extension_allowlist_check :
    (∀ (env : Env) (st : IndexerState) (path : String) (cs co : Int) (bs : Nat),
      env.isAbsUrl path = false → env.fileExists path = true →
      splitext_ext path ∉ _FILE_EXTENSIONS →
      KnowledgeIndexer.index env st path cs co bs =
        ([], .error PyErr.loaderInitFailure)) ∧
    (∀ (env : Env) (path : String),
      env.isAbsUrl path = false → env.fileExists path = true →
      splitext_ext path ∈ _FILE_EXTENSIONS →
      ∃ loader, initLoader env path = ([], .ok (loader, path, ""))) ∧
    (∀ e : String, e ∈ _FILE_EXTENSIONS ↔
      (e = ".pdf" ∨ e = ".mobi" ∨ e = ".epub" ∨ e = ".txt" ∨ e = ".html")) := by
  refine ⟨?_, ?_, ?_⟩
  · intro env st path cs co bs hurl hex hext
    have hL : initLoader env path = ([], .error PyErr.loaderInitFailure) := by
      unfold initLoader
      simp only [hurl, Bool.false_eq_true, if_false, hex, if_true, if_neg hext,
        PyErr.isValueErrorKind]
    exact index_of_loader_error env st path cs co bs [] _ hL
  · intro env path hurl hex hext
    refine ⟨if splitext_ext path = ".mobi" then { kind := LoaderKind.mobi, path := path }
      else if splitext_ext path = ".epub" then { kind := LoaderKind.epub, path := path }
      else { kind := LoaderKind.unstructured, path := path }, ?_⟩
    unfold initLoader
    simp only [hurl, Bool.false_eq_true, if_false, hex, if_true, if_pos hext]
  · intro e
    simp only [_FILE_EXTENSIONS, List.mem_cons, List.mem_singleton, List.not_mem_nil,
      or_false]

/-- Witness for the amended C6: `notes.docx` is rejected with the
wrapped loader-initialization error and an empty trace, while `a.txt`
passes the extension check and loader construction succeeds. -/
theorem extension_allowlist_check_witness :
    KnowledgeIndexer.index env6 st0 "notes.docx" 1000 100 50 =
      ([], .error PyErr.loaderInitFailure) ∧
    ∃ loader, initLoader env1 "a.txt" = ([], .ok (loader, "a.txt", "")) :=
  ⟨extension_allowlist_check.1 env6 st0 "notes.docx" 1000 100 50
      (by decide) (by decide) (by decide),
   extension_allowlist_check.2.1 env1 "a.txt" (by decide) (by decide) (by decide)⟩

/-- Claim C8 (code bug): the claim says a temporary file downloaded by
the url branch is deleted after a successful `index()` call, and an
original non-url input is never deleted.  In the code `filepath` is
initialized to `""` in `_init_loader` and never reassigned — the
downloader's local path is bound to `path` instead — so
`os.path.exists(filepath)` is always tested on `""` (false) and
`os.remove` never runs, contradicting the comment "Remove the
downloaded file." at line 76.  Concretely: a successful url indexing
run whose trace contains the download event but no `removeFile` event
at all. -/
theorem downloaded_file_never_removed :
    KnowledgeIndexer.index env8 st0 "http://example.com/x.pdf" 1000 100 50 =
      ([Event.downloadFile "http://example.com/x.pdf" "/tmp/x.pdf",
        Event.embedCall 0
          [{ page_content := "hi you", metadata := [("source", "/tmp/x.pdf")] }],
        Event.saveIndex
          [{ page_content := "hi you", metadata := [("source", "/tmp/x.pdf")] }],
        Event.unlinkRecord, Event.writeRecord ["/tmp/x.pdf"]],
       .ok ("Index finished.",
         { indexedDoc := ["/tmp/x.pdf"],
           diskIndex := some
             [{ page_content := "hi you", metadata := [("source", "/tmp/x.pdf")] }],
           diskRecord := some
             (RecordFileContent.parsed [("indexed_doc", ["/tmp/x.pdf"])]) })) ∧
    ((KnowledgeIndexer.index env8 st0 "http://example.com/x.pdf" 1000 100 50).1.all
      (fun e => !e.isRemoveFile)) = true := by
  constructor
  · decide
  · decide

/-- Claim C3: if the embedding capability raises on some batch (all
earlier batches succeeding), the exception propagates out of `index()`
as the embedding failure, and the trace contains no index save, no
record unlink and no record write: nothing is persisted, for the index
or the record. -/
theorem embed_batch_failure_no_persist
    (env : Env) (st : IndexerState) (path : String) (cs co : Int) (bs : Nat)
    (evs1 : List Event) (loader : Loader) (source fp : String)
    (B : List (List Document)) (k : Nat)
    (h1 : initLoader env path = (evs1, .ok (loader, source, fp)))
    (hco : co < cs)
    (hnew : source ∉ st.indexedDoc)
    (hB : B = chunk_list ((env.loadDocs loader cs co).map (processDoc source)) bs)
    (hk : k < B.length)
    (hprev : ∀ i, i < k → env.embedFails i (B.getD i []) = false)
    (hfail : env.embedFails k (B.getD k []) = true) :
    ∃ evs, KnowledgeIndexer.index env st path cs co bs =
        (evs, .error PyErr.embeddingFailure) ∧
      ∀ e ∈ evs, e.isSaveIndex = false ∧ e.isWriteRecord = false ∧
        e.isUnlinkRecord = false := by
  subst hB
  have hrb : (runBatches env st.diskIndex 0
      (chunk_list ((env.loadDocs loader cs co).map (processDoc source)) bs)).2 =
        .error PyErr.embeddingFailure := by
    apply runBatches_fail_at env _ st.diskIndex 0 k hk
    · intro i hi
      simpa using hprev i hi
    · simpa using hfail
  have he := indexEmbeddings_of_batches_error env st (env.loadDocs loader cs co)
    source bs PyErr.embeddingFailure hnew hrb
  have h3 := index_of_emb_error env st path cs co bs evs1 _ loader source fp
    PyErr.embeddingFailure h1 hco he
  refine ⟨_, h3, ?_⟩
  intro e hev
  rcases List.mem_append.mp hev with hev' | hev'
  · have hd := initLoader_events env path
    rw [h1] at hd
    obtain ⟨u, p, rfl⟩ := hd e hev'
    exact ⟨rfl, rfl, rfl⟩
  · rcases List.mem_append.mp hev' with hev'' | hev''
    · have hl := loadEvs_mem st e hev''
      subst hl
      exact ⟨rfl, rfl, rfl⟩
    · exact embedCall_not_persist (runBatches_events env _ st.diskIndex 0 e hev'')

/-- Witness for C3: in `env3` (five one-document batches, the third
embedding call raising), indexing `b.txt` with batch size 1 fails with
the embedding error and persists nothing. -/
theorem embed_batch_failure_no_persist_witness :
    ∃ evs, KnowledgeIndexer.index env3 st0 "b.txt" 1000 100 1 =
        (evs, .error PyErr.embeddingFailure) ∧
      ∀ e ∈ evs, e.isSaveIndex = false ∧ e.isWriteRecord = false ∧
        e.isUnlinkRecord = false :=
  embed_batch_failure_no_persist env3 st0 "b.txt" 1000 100 1 []
    { kind := LoaderKind.unstructured, path := "b.txt" } "b.txt" ""
    (chunk_list ((env3.loadDocs { kind := LoaderKind.unstructured, path := "b.txt" }
      1000 100).map (processDoc "b.txt")) 1) 2
    (by decide) (by decide) (by decide) rfl (by decide) (by decide) (by decide)

/-- Claim C2: in every successful `index()` call on a new source, the
trace ends with the index save followed by the record unlink and the
record write — the vector index is persisted strictly before the record
is — no other event saves the index or writes the record, the written
record contains the source id, the final state's persisted record is
exactly the written one, and the persisted index contains every
processed chunk of the source. -/
theorem index_save_before_record_write
    (env : Env) (st : IndexerState) (path : String) (cs co : Int) (bs : Nat)
    (evs evs1 : List Event) (loader : Loader) (source fp status : String)
    (st' : IndexerState)
    (h1 : initLoader env path = (evs1, .ok (loader, source, fp)))
    (hnew : source ∉ st.indexedDoc)
    (hbs : 0 < bs)
    (h : KnowledgeIndexer.index env st path cs co bs = (evs, .ok (status, st'))) :
    ∃ pre d rec post,
      evs = pre ++ [Event.saveIndex d, Event.unlinkRecord, Event.writeRecord rec]
        ++ post ∧
      (∀ e ∈ pre, e.isSaveIndex = false ∧ e.isWriteRecord = false) ∧
      (∀ e ∈ post, e.isSaveIndex = false ∧ e.isWriteRecord = false) ∧
      source ∈ rec ∧
      st'.diskIndex = some d ∧
      st'.diskRecord = some (RecordFileContent.parsed [("indexed_doc", rec)]) ∧
      ∀ doc ∈ (env.loadDocs loader cs co).map (processDoc source), doc ∈ d := by
  by_cases hle : cs ≤ co
  · rw [index_of_config_error env st path cs co bs evs1 loader source fp h1 hle] at h
    simp only [Prod.mk.injEq] at h
    exact absurd h.2 (by intro hc; cases hc)
  · have hco : co < cs := not_le.mp hle
    rcases he : indexEmbeddings env st (env.loadDocs loader cs co) source bs
      with ⟨evs2, r2⟩
    cases r2 with
    | error e =>
      rw [index_of_emb_error env st path cs co bs evs1 evs2 loader source fp e
        h1 hco he] at h
      simp only [Prod.mk.injEq] at h
      exact absurd h.2 (by intro hc; cases hc)
    | ok st'' =>
      rw [index_of_emb_ok env st path cs co bs evs1 evs2 loader source fp st''
        h1 hco he] at h
      simp only [Prod.mk.injEq] at h
      obtain ⟨hevs, hok⟩ := h
      injection hok with hpair
      obtain ⟨hstat, hst⟩ := Prod.mk.injEq .. |>.mp hpair
      obtain ⟨d, hr, hst'', hevs2⟩ := indexEmbeddings_ok_inv env st
        (env.loadDocs loader cs co) source bs evs2 st'' hnew he
      refine ⟨evs1 ++ (loadEvs st ++ (runBatches env st.diskIndex 0
          (chunk_list ((env.loadDocs loader cs co).map (processDoc source)) bs)).1),
        d, st.indexedDoc.insert source,
        (if env.fileExists fp then [Event.removeFile fp] else []),
        ?_, ?_, ?_, ?_, ?_, ?_, ?_⟩
      · rw [← hevs, hevs2]
        simp [List.append_assoc]
      · intro e hepre
        rcases List.mem_append.mp hepre with h' | h'
        · have hd := initLoader_events env path
          rw [h1] at hd
          obtain ⟨u, p, rfl⟩ := hd e h'
          exact ⟨rfl, rfl⟩
        · rcases List.mem_append.mp h' with h'' | h''
          · have hl := loadEvs_mem st e h''
            subst hl
            exact ⟨rfl, rfl⟩
          · have hemb := embedCall_not_persist
              (runBatches_events env _ st.diskIndex 0 e h'')
            exact ⟨hemb.1, hemb.2.1⟩
      · intro e hpost
        by_cases hf : env.fileExists fp
        · rw [if_pos hf] at hpost
          simp only [List.mem_singleton] at hpost
          subst hpost
          exact ⟨rfl, rfl⟩
        · rw [if_neg hf] at hpost
          simp at hpost
      · exact List.mem_insert_self source st.indexedDoc
      · rw [← hst, hst'']
      · rw [← hst, hst'']
      · intro doc hdoc
        have hfull : runBatches env st.diskIndex 0
            (chunk_list ((env.loadDocs loader cs co).map (processDoc source)) bs) =
            ((runBatches env st.diskIndex 0
              (chunk_list ((env.loadDocs loader cs co).map (processDoc source)) bs)).1,
             .ok (some d)) := by
          rw [← hr]
        have hd := runBatches_ok_eq env _ st.diskIndex 0 _ (some d) hfull
        obtain ⟨m, rfl⟩ : ∃ m, bs = m + 1 := ⟨bs - 1, by omega⟩
        cases hdi : st.diskIndex with
        | some l =>
          rw [hdi, mergeAll_some] at hd
          injection hd with hd'
          rw [hd', chunk_list_flatten]
          exact List.mem_append_right l hdoc
        | none =>
          rw [hdi] at hd
          cases hB : chunk_list ((env.loadDocs loader cs co).map
              (processDoc source)) (m + 1) with
          | nil =>
            have hnil := (chunk_list_eq_nil_iff
              ((env.loadDocs loader cs co).map (processDoc source)) m).mp hB
            rw [hnil] at hdoc
            simp at hdoc
          | cons b bs2 =>
            rw [hB, mergeAll_none_cons] at hd
            injection hd with hd'
            rw [hd', ← List.flatten_cons, ← hB, chunk_list_flatten]
            exact hdoc

/-- Witness for C2: the first successful `index("a.txt")` call in
`env1` produces a trace whose final three events are the index save,
the record unlink and the record write, in that order. -/
theorem index_save_before_record_write_witness :
    ∃ pre d rec post,
      ([Event.embedCall 0 [demoDocProcessed], Event.saveIndex [demoDocProcessed],
        Event.unlinkRecord, Event.writeRecord ["a.txt"]] : List Event) =
        pre ++ [Event.saveIndex d, Event.unlinkRecord, Event.writeRecord rec]
          ++ post ∧
      (∀ e ∈ pre, e.isSaveIndex = false ∧ e.isWriteRecord = false) ∧
      (∀ e ∈ post, e.isSaveIndex = false ∧ e.isWriteRecord = false) ∧
      "a.txt" ∈ rec ∧
      st1.diskIndex = some d ∧
      st1.diskRecord = some (RecordFileContent.parsed [("indexed_doc", rec)]) ∧
      ∀ doc ∈ (env1.loadDocs { kind := LoaderKind.unstructured, path := "a.txt" }
        1000 100).map (processDoc "a.txt"), doc ∈ d :=
  index_save_before_record_write env1 st0 "a.txt" 1000 100 50
    [Event.embedCall 0 [demoDocProcessed], Event.saveIndex [demoDocProcessed],
     Event.unlinkRecord, Event.writeRecord ["a.txt"]] []
    { kind := LoaderKind.unstructured, path := "a.txt" } "a.txt" ""
    "Index finished." st1 (by decide) (by decide) (by decide) (by decide)

theorem processDoc_lookup (source : String) (d : Document) :
    (processDoc source d).metadata.lookup "source" = some source := by
  simp [processDoc, dictSet, List.lookup]

theorem processDoc_chars (source : String) (d : Document) :
    ∀ c ∈ (processDoc source d).page_content.toList,
      (isWordChar c || isSpaceChar c) = true ∧ c ≠ apostChar ∧ c ≠ '"' := by
  intro c hc
  have hc' : c ∈ d.page_content.toList.filter keepChar := hc
  have hk := (List.mem_filter.mp hc').2
  unfold keepChar at hk
  simp only [Bool.and_eq_true, Bool.not_eq_true', Bool.or_eq_false_iff,
    decide_eq_false_iff_not] at hk
  exact ⟨hk.1, hk.2.1, hk.2.2⟩

theorem indexEmbeddings_embed_batch (env : Env) (st : IndexerState)
    (documents : List Document) (source : String) (bs : Nat)
    (hns : source ∉ st.indexedDoc) {i : Nat} {b : List Document}
    (hm : Event.embedCall i b ∈ (indexEmbeddings env st documents source bs).1) :
    b ∈ chunk_list (documents.map (processDoc source)) bs := by
  rcases hr : (runBatches env st.diskIndex 0
      (chunk_list (documents.map (processDoc source)) bs)).2 with a | e
  case error =>
    rw [indexEmbeddings_of_batches_error env st documents source bs e hns hr] at hm
    dsimp only at hm
    rcases List.mem_append.mp hm with h' | h'
    · have hl := loadEvs_mem st _ h'
      simp at hl
    · exact runBatches_batch_mem env _ st.diskIndex 0 i b h'
  case ok =>
    cases a with
    | none =>
      rw [indexEmbeddings_of_batches_none env st documents source bs hns hr] at hm
      dsimp only at hm
      rcases List.mem_append.mp hm with h' | h'
      · have hl := loadEvs_mem st _ h'
        simp at hl
      · exact runBatches_batch_mem env _ st.diskIndex 0 i b h'
    | some d =>
      rw [indexEmbeddings_of_batches_ok env st documents source bs d hns hr] at hm
      dsimp only at hm
      rcases List.mem_append.mp hm with h' | h'
      · rcases List.mem_append.mp h' with h'' | h''
        · have hl := loadEvs_mem st _ h''
          simp at hl
        · exact runBatches_batch_mem env _ st.diskIndex 0 i b h''
      · simp at h'

/-- Claim C7: every document inside any embedding-call batch of any
`index()` run has its `metadata["source"]` set to the resolved source
id, and its content contains no character outside word characters and
whitespace (in particular no punctuation and no quote characters) —
the processing pass of `_index_embeddings` tags and sanitizes every
chunk before it is embedded. -/
theorem processed_chunks_tagged_and_sanitized
    (env : Env) (st : IndexerState) (path : String) (cs co : Int) (bs : Nat)
    (evs : List Event) (res : PyResult (String × IndexerState))
    (evs1 : List Event) (loader : Loader) (source fp : String)
    (idx : Nat) (batch : List Document) (doc : Document)
    (h1 : initLoader env path = (evs1, .ok (loader, source, fp)))
    (h : KnowledgeIndexer.index env st path cs co bs = (evs, res))
    (hmem : Event.embedCall idx batch ∈ evs)
    (hdoc : doc ∈ batch) :
    doc.metadata.lookup "source" = some source ∧
    ∀ c ∈ doc.page_content.toList,
      (isWordChar c || isSpaceChar c) = true ∧ c ≠ apostChar ∧ c ≠ '"' := by
  have hdl : ∀ e ∈ evs1, ∃ u p, e = Event.downloadFile u p := by
    have hev := initLoader_events env path
    rw [h1] at hev
    exact hev
  by_cases hle : cs ≤ co
  · rw [index_of_config_error env st path cs co bs evs1 loader source fp h1 hle] at h
    simp only [Prod.mk.injEq] at h
    rw [← h.1] at hmem
    obtain ⟨u, p, hc⟩ := hdl _ hmem
    simp at hc
  · have hco : co < cs := not_le.mp hle
    by_cases hskip : source ∈ st.indexedDoc
    · have h2 := indexEmbeddings_skip env st (env.loadDocs loader cs co) source bs hskip
      rw [index_of_emb_ok env st path cs co bs evs1 [] loader source fp st
        h1 hco h2] at h
      simp only [Prod.mk.injEq] at h
      rw [← h.1] at hmem
      rcases List.mem_append.mp hmem with h' | h'
      · rcases List.mem_append.mp h' with h'' | h''
        · obtain ⟨u, p, hc⟩ := hdl _ h''
          simp at hc
        · simp at h''
      · by_cases hf : env.fileExists fp
        · rw [if_pos hf] at h'
          simp at h'
        · rw [if_neg hf] at h'
          simp at h'
    · rcases he : indexEmbeddings env st (env.loadDocs loader cs co) source bs
        with ⟨evs2, r2⟩
      have hm2 : Event.embedCall idx batch ∈ evs2 := by
        cases r2 with
        | error e =>
          rw [index_of_emb_error env st path cs co bs evs1 evs2 loader source fp e
            h1 hco he] at h
          simp only [Prod.mk.injEq] at h
          rw [← h.1] at hmem
          rcases List.mem_append.mp hmem with h' | h'
          · obtain ⟨u, p, hc⟩ := hdl _ h'
            simp at hc
          · exact h'
        | ok st'' =>
          rw [index_of_emb_ok env st path cs co bs evs1 evs2 loader source fp st''
            h1 hco he] at h
          simp only [Prod.mk.injEq] at h
          rw [← h.1] at hmem
          rcases List.mem_append.mp hmem with h' | h'
          · rcases List.mem_append.mp h' with h'' | h''
            · obtain ⟨u, p, hc⟩ := hdl _ h''
              simp at hc
            · exact h''
          · by_cases hf : env.fileExists fp
            · rw [if_pos hf] at h'
              simp at h'
            · rw [if_neg hf] at h'
              simp at h'
      have hb : batch ∈ chunk_list ((env.loadDocs loader cs co).map
          (processDoc source)) bs := by
        apply indexEmbeddings_embed_batch env st (env.loadDocs loader cs co)
          source bs hskip
        rw [he]
        exact hm2
      cases bs with
      | zero =>
        rw [chunk_list_zero] at hb
        simp at hb
      | succ m =>
        have hpd : doc ∈ (env.loadDocs loader cs co).map (processDoc source) :=
          mem_of_mem_chunk_list hb hdoc
        obtain ⟨d0, -, rfl⟩ := List.mem_map.mp hpd
        exact ⟨processDoc_lookup source d0, processDoc_chars source d0⟩

/-- Witness for C7: the single chunk embedded by the concrete run of
`env1` is tagged with source `a.txt` and contains only word and space
characters. -/
theorem processed_chunks_tagged_and_sanitized_witness :
    demoDocProcessed.metadata.lookup "source" = some "a.txt" ∧
    ∀ c ∈ demoDocProcessed.page_content.toList,
      (isWordChar c || isSpaceChar c) = true ∧ c ≠ apostChar ∧ c ≠ '"' :=
  processed_chunks_tagged_and_sanitized env1 st0 "a.txt" 1000 100 50
    [Event.embedCall 0 [demoDocProcessed], Event.saveIndex [demoDocProcessed],
     Event.unlinkRecord, Event.writeRecord ["a.txt"]]
    (.ok ("Index finished.", st1)) []
    { kind := LoaderKind.unstructured, path := "a.txt" } "a.txt" ""
    0 [demoDocProcessed] demoDocProcessed
    (by decide) (by decide) (by decide) (by decide)

end YourAssistant
